import Mathlib

/-!
Verification of the room-temperature monitoring core (ingestion store,
event bus, alert engine, notification dispatcher).

The definitions below form a shallow embedding of the TypeScript source:

* `src/lib/store.ts`        — bounded, TTL-pruned per-device reading history;
* `src/lib/bus.ts`          — in-process publish/subscribe fanout;
* `src/lib/alerts.ts`       — per-(device, viewer) hysteresis alert engine;
* `src/lib/device-preferences.ts` — per-device / per-user threshold store;
* `src/lib/notifier.ts`     — per-channel notification dispatch.

Modelling conventions:

* Javascript `Map` objects and plain-object records are modelled as
  insertion-ordered association lists (`SMap` below): `Map.set` on an
  existing key keeps the key's position, `Map.delete` removes the entry,
  iteration follows insertion order, matching the JS semantics.
* JS numbers that carry temperatures/thresholds are modelled as `ℚ`;
  timestamps-in-milliseconds as `Int`.
* `Date.parse` on a reading's ISO `ts` string is modelled as `parseTs`,
  an abstract parse that either yields a finite millisecond value or
  fails (models `Number.isFinite(Date.parse(ts)) === false`).
* `Date.now()` is passed explicitly as a `now : Int` parameter.
* Exceptions are modelled with `Option`/`Except`.
-/

set_option maxHeartbeats 1000000
set_option linter.unusedVariables false

namespace RoomTemp

/-! ## Insertion-ordered string-keyed maps (JS `Map` / plain objects) -/

abbrev SMap (α : Type) := List (String × α)

variable {α : Type}

/-- Keys of a map, in insertion order. -/
def keysOf (m : SMap α) : List String := m.map Prod.fst

/-- `Map.get` : first entry with the given key. -/
def alookup (k : String) : SMap α → Option α
  | [] => none
  | p :: rest => if p.1 = k then some p.2 else alookup k rest

/-- `Map.set` / object assignment: replace in place, else append. -/
def aset (k : String) (v : α) : SMap α → SMap α
  | [] => [(k, v)]
  | p :: rest => if p.1 = k then (k, v) :: rest else p :: aset k v rest

/-- `Map.delete` / `delete obj[k]`. -/
def aerase (k : String) : SMap α → SMap α
  | [] => []
  | p :: rest => if p.1 = k then rest else p :: aerase k rest

theorem alookup_aset_self (k : String) (v : α) (m : SMap α) :
    alookup k (aset k v m) = some v := by
  induction m with
  | nil => simp [aset, alookup]
  | cons p rest ih =>
    by_cases h : p.1 = k
    · simp [aset, h, alookup]
    · simp [aset, h, alookup, ih]

theorem alookup_aset_ne (k k' : String) (v : α) (m : SMap α) (h : k' ≠ k) :
    alookup k' (aset k v m) = alookup k' m := by
  have hks : ¬ (k = k') := fun e => h e.symm
  induction m with
  | nil => simp [aset, alookup, hks]
  | cons p rest ih =>
    by_cases hp : p.1 = k
    · subst hp
      simp [aset, alookup, hks, ih]
    · by_cases hp' : p.1 = k'
      · simp [aset, hp, alookup, hp', hks, h]
      · simp [aset, hp, alookup, hp', ih]

theorem alookup_aerase_ne (k k' : String) (m : SMap α) (h : k' ≠ k) :
    alookup k' (aerase k m) = alookup k' m := by
  have hks : ¬ (k = k') := fun e => h e.symm
  induction m with
  | nil => simp [aerase, alookup]
  | cons p rest ih =>
    by_cases hp : p.1 = k
    · subst hp
      simp [aerase, alookup, hks, ih]
    · by_cases hp' : p.1 = k'
      · simp [aerase, hp, alookup, hp', hks, h]
      · simp [aerase, hp, alookup, hp', ih]

theorem alookup_eq_none_of_not_mem_keys (k : String) (m : SMap α)
    (h : k ∉ keysOf m) : alookup k m = none := by
  induction m with
  | nil => simp [alookup]
  | cons p rest ih =>
    simp only [keysOf, List.map_cons, List.mem_cons, not_or] at h
    have hpk : ¬ p.1 = k := fun e => h.1 e.symm
    simp [alookup, hpk, ih (by simpa [keysOf] using h.2)]

theorem alookup_aerase_self (k : String) (m : SMap α)
    (h : (keysOf m).Nodup) : alookup k (aerase k m) = none := by
  induction m with
  | nil => simp [aerase, alookup]
  | cons p rest ih =>
    simp only [keysOf, List.map_cons, List.nodup_cons] at h
    by_cases hp : p.1 = k
    · subst hp
      simpa [aerase] using alookup_eq_none_of_not_mem_keys p.1 rest h.1
    · simp [aerase, hp, alookup, ih h.2]

theorem keysOf_aerase_sublist (k : String) (m : SMap α) :
    (keysOf (aerase k m)).Sublist (keysOf m) := by
  induction m with
  | nil => simp [aerase, keysOf]
  | cons p rest ih =>
    by_cases hp : p.1 = k
    · have he : aerase k (p :: rest) = rest := by simp [aerase, hp]
      rw [he]
      exact List.sublist_cons_self p.1 (keysOf rest)
    · have he : aerase k (p :: rest) = p :: aerase k rest := by simp [aerase, hp]
      rw [he]
      exact List.Sublist.cons₂ p.1 ih

theorem nodup_keysOf_aerase (k : String) (m : SMap α)
    (h : (keysOf m).Nodup) : (keysOf (aerase k m)).Nodup :=
  (keysOf_aerase_sublist k m).nodup h

theorem keysOf_aset (k : String) (v : α) (m : SMap α) :
    keysOf (aset k v m) = if k ∈ keysOf m then keysOf m else keysOf m ++ [k] := by
  induction m with
  | nil => simp [aset, keysOf]
  | cons p rest ih =>
    by_cases hp : p.1 = k
    · subst hp
      simp [aset, keysOf]
    · have hkp : ¬ k = p.1 := fun e => hp e.symm
      have h1 : keysOf (aset k v (p :: rest)) = p.1 :: keysOf (aset k v rest) := by
        simp [aset, hp, keysOf]
      have h2 : keysOf (p :: rest) = p.1 :: keysOf rest := by simp [keysOf]
      rw [h1, h2, ih]
      by_cases hm : k ∈ keysOf rest
      · rw [if_pos hm, if_pos (by simp [hm])]
      · rw [if_neg hm, if_neg (by simp [hm, hkp])]
        simp

theorem nodup_keysOf_aset (k : String) (v : α) (m : SMap α)
    (h : (keysOf m).Nodup) : (keysOf (aset k v m)).Nodup := by
  rw [keysOf_aset]
  by_cases hm : k ∈ keysOf m
  · rw [if_pos hm]
    exact h
  · rw [if_neg hm]
    refine List.Nodup.append h (List.nodup_singleton k) ?_
    intro a ha hb
    simp only [List.mem_singleton] at hb
    subst hb
    exact hm ha

theorem alookup_filter_key (k : String) (q : String → Bool) (m : SMap α) :
    alookup k (m.filter (fun kv => q kv.1)) =
      if q k then alookup k m else none := by
  induction m with
  | nil => simp [alookup]
  | cons p rest ih =>
    by_cases hp : p.1 = k
    · subst hp
      by_cases hq : q p.1
      · simp [List.filter_cons, hq, alookup, ih]
      · simp [List.filter_cons, hq, alookup, ih]
    · by_cases hq : q p.1
      · simp [List.filter_cons, hq, alookup, hp, ih]
      · simp [List.filter_cons, hq, alookup, hp, ih]

theorem alookup_mem (k : String) (v : α) (m : SMap α)
    (h : alookup k m = some v) : (k, v) ∈ m := by
  induction m with
  | nil => simp [alookup] at h
  | cons p rest ih =>
    by_cases hp : p.1 = k
    · simp only [alookup, if_pos hp] at h
      injection h with h
      have hpkv : p = (k, v) := by
        cases p with
        | mk a b =>
          simp only [Prod.mk.injEq]
          exact ⟨hp, h⟩
      rw [hpkv]
      exact List.mem_cons_self _ _
    · simp only [alookup, if_neg hp] at h
      exact List.mem_cons_of_mem _ (ih h)

/-! ## Readings and the ingestion store (`src/lib/store.ts`) -/

structure Reading where
  deviceId : String
  ts : String
  temperatureC : ℚ
  humidityPct : Option ℚ := none
  rssi : Option Int := none
  isDemo : Bool := false
deriving DecidableEq

/-- Digit-string parser used to give `parseTs` concrete, executable
behaviour (accumulator-style, structural recursion). -/
def parseNatAux : List Char → Nat → Option Nat
  | [], acc => some acc
  | c :: cs, acc =>
    if c.isDigit then parseNatAux cs (acc * 10 + (c.toNat - '0'.toNat)) else none

/-- Models `Date.parse(reading.ts)` together with the `Number.isFinite`
check: `none` stands for an unparseable timestamp (`NaN`), `some t` for a
finite millisecond value.  The exact parse function is irrelevant to the
claims; what matters is that some strings parse to a finite value and
others do not. -/
def parseTs (s : String) : Option Int :=
  match s.data with
  | [] => none
  | '-' :: cs =>
    if cs.isEmpty then none else (parseNatAux cs 0).map (fun n => -(n : Int))
  | cs => (parseNatAux cs 0).map (fun n => (n : Int))

def DEFAULT_READING_TTL_MS : Int := 60000

def MAX_HISTORY_PER_DEVICE : Nat := 500

/-- The filter predicate of `pruneStaleReadings`: a reading is kept as
fresh when its timestamp parses and is at least `now - ttl` (the cutoff). -/
def isFresh (now ttl : Int) (r : Reading) : Bool :=
  match parseTs r.ts with
  | none => false
  | some t => decide (t ≥ now - ttl)

/-- `deviceIdToReadings`: per-device history, insertion ordered. -/
abbrev Store := SMap (List Reading)

/-- One device's pruning step inside `pruneStaleReadings`:
`none` means the map entry is deleted. When every entry is stale the
single most recent entry is retained as a sentinel. -/
def pruneBucket (now ttl : Int) (readings : List Reading) : Option (List Reading) :=
  if readings.isEmpty then none
  else
    let fresh := readings.filter (isFresh now ttl)
    if fresh.isEmpty then
      readings.getLast?.map (fun latest => [latest])
    else
      if fresh.length ≠ readings.length then some fresh else some readings

/-- `pruneStaleReadings(ttlMs)`: returns early when `ttl ≤ 0`, otherwise
rewrites every device's bucket in place via `pruneBucket`. -/
def pruneStaleReadings (ttl now : Int) (s : Store) : Store :=
  if ttl ≤ 0 then s
  else s.filterMap (fun p => (pruneBucket now ttl p.2).map (fun l => (p.1, l)))

/-- `addReading`: prune, append to the device's history, evict the oldest
entry when capacity is exceeded.  (The source additionally forwards the
reading to `publishReading` and `handleReadingForAlerts`, modelled
separately below; those do not touch the store.) -/
def addReading (now ttl : Int) (s : Store) (r : Reading) : Store :=
  let s := pruneStaleReadings ttl now s
  let list := (alookup r.deviceId s).getD []
  let list := list ++ [r]
  let list := if list.length > MAX_HISTORY_PER_DEVICE then list.drop 1 else list
  aset r.deviceId list s

/-- `listLatestReadings(ttlMs)`: prune, then report the last stored
reading of every device. -/
def listLatestReadings (ttl now : Int) (s : Store) : List Reading :=
  (pruneStaleReadings ttl now s).filterMap (fun p => p.2.getLast?)

/-! ### C9 — pruning is idempotent -/

theorem pruneBucket_idem (now ttl : Int) (l l' : List Reading)
    (h : pruneBucket now ttl l = some l') :
    pruneBucket now ttl l' = some l' := by
  by_cases hne : l.isEmpty = true
  · simp [pruneBucket, hne] at h
  · simp only [pruneBucket, hne, Bool.false_eq_true, if_false] at h
    by_cases hfe : (l.filter (isFresh now ttl)).isEmpty = true
    · -- all entries stale: the sentinel (single most recent entry) is kept
      rw [if_pos hfe] at h
      rcases hl : l.getLast? with _ | latest
      · rw [hl] at h
        simp at h
      · rw [hl] at h
        simp only [Option.map_some', Option.some.injEq] at h
        subst h
        have hmem : latest ∈ l := by
          rcases List.mem_getLast?_eq_getLast (Option.mem_def.mpr hl) with ⟨hl0, heq⟩
          rw [heq]
          exact List.getLast_mem hl0
        have hstale : isFresh now ttl latest = false := by
          cases hx : isFresh now ttl latest
          · rfl
          · exfalso
            have hmf : latest ∈ l.filter (isFresh now ttl) :=
              List.mem_filter.mpr ⟨hmem, hx⟩
            rw [List.isEmpty_iff] at hfe
            rw [hfe] at hmf
            simp at hmf
        simp [pruneBucket, List.filter_cons, hstale]
    · rw [if_neg hfe] at h
      have hsub : (l.filter (isFresh now ttl)).Sublist l := List.filter_sublist l
      by_cases hlen : (l.filter (isFresh now ttl)).length ≠ l.length
      · rw [if_pos hlen] at h
        simp only [Option.some.injEq] at h
        subst h
        have hall : ∀ x ∈ l.filter (isFresh now ttl), isFresh now ttl x = true :=
          fun x hx => (List.mem_filter.mp hx).2
        have hff : (l.filter (isFresh now ttl)).filter (isFresh now ttl)
            = l.filter (isFresh now ttl) := List.filter_eq_self.mpr hall
        simp [pruneBucket, hfe, hff]
      · rw [if_neg hlen] at h
        simp only [Option.some.injEq] at h
        subst h
        push_neg at hlen
        have hfl : l.filter (isFresh now ttl) = l := hsub.eq_of_length hlen
        simp [pruneBucket, hfl, hne]

theorem pruneStaleReadings_idem (ttl now : Int) (s : Store) :
    pruneStaleReadings ttl now (pruneStaleReadings ttl now s)
      = pruneStaleReadings ttl now s := by
  by_cases h0 : ttl ≤ 0
  · simp [pruneStaleReadings, h0]
  · simp only [pruneStaleReadings, if_neg h0]
    induction s with
    | nil => simp
    | cons p rest ih =>
      rcases hb : pruneBucket now ttl p.2 with _ | l'
      · simp [List.filterMap_cons, hb, ih]
      · simp only [List.filterMap_cons, hb, Option.map_some']
        simp [List.filterMap_cons, pruneBucket_idem now ttl p.2 l' hb, ih]

/-- C9: pruning is idempotent — running `pruneStaleReadings` twice
consecutively at the same instant with the same TTL and no readings added
in between leaves the store (every device's retained entries, including
the single-sentinel case) exactly as running it once. -/
theorem prune_idempotent (ttl now : Int) (s : Store) :
    pruneStaleReadings ttl now (pruneStaleReadings ttl now s)
      = pruneStaleReadings ttl now s :=
  pruneStaleReadings_idem ttl now s

/-! ### C5 — offline devices retain their most recent reading -/

theorem pruneBucket_subset (now ttl : Int) (l l' : List Reading)
    (h : pruneBucket now ttl l = some l') : ∀ x ∈ l', x ∈ l := by
  by_cases hne : l.isEmpty = true
  · simp [pruneBucket, hne] at h
  · simp only [pruneBucket, hne, Bool.false_eq_true, if_false] at h
    by_cases hfe : (l.filter (isFresh now ttl)).isEmpty = true
    · rw [if_pos hfe] at h
      rcases hl : l.getLast? with _ | latest
      · rw [hl] at h
        simp at h
      · rw [hl] at h
        simp only [Option.map_some', Option.some.injEq] at h
        subst h
        intro x hx
        simp only [List.mem_singleton] at hx
        subst hx
        rcases List.mem_getLast?_eq_getLast (Option.mem_def.mpr hl) with ⟨hl0, heq⟩
        rw [heq]
        exact List.getLast_mem hl0
    · rw [if_neg hfe] at h
      by_cases hlen : (l.filter (isFresh now ttl)).length ≠ l.length
      · rw [if_pos hlen] at h
        simp only [Option.some.injEq] at h
        subst h
        exact fun x hx => (List.mem_filter.mp hx).1
      · rw [if_neg hlen] at h
        simp only [Option.some.injEq] at h
        subst h
        exact fun x hx => hx

theorem keysOf_pruneStale_sublist (ttl now : Int) (s : Store) :
    (keysOf (pruneStaleReadings ttl now s)).Sublist (keysOf s) := by
  by_cases h0 : ttl ≤ 0
  · simp [pruneStaleReadings, h0]
  · simp only [pruneStaleReadings, if_neg h0]
    induction s with
    | nil => simp [keysOf]
    | cons p rest ih =>
      rcases hb : pruneBucket now ttl p.2 with _ | l'
      · simp only [List.filterMap_cons, hb, Option.map_none']
        exact ih.trans (List.sublist_cons_self p.1 (keysOf rest))
      · simp only [List.filterMap_cons, hb, Option.map_some']
        exact List.Sublist.cons₂ p.1 ih

theorem alookup_pruneStale (ttl now : Int) (s : Store) (d : String)
    (l : List Reading) (h0 : ¬ ttl ≤ 0) (hnod : (keysOf s).Nodup)
    (hl : alookup d s = some l) :
    alookup d (pruneStaleReadings ttl now s) = pruneBucket now ttl l := by
  simp only [pruneStaleReadings, if_neg h0]
  induction s with
  | nil => simp [alookup] at hl
  | cons p rest ih =>
    simp only [keysOf, List.map_cons, List.nodup_cons] at hnod
    by_cases hp : p.1 = d
    · rw [alookup, if_pos hp] at hl
      injection hl with hl
      subst hl
      rcases hb : pruneBucket now ttl p.2 with _ | l'
      · simp only [List.filterMap_cons, hb, Option.map_none']
        have hd : d ∉ keysOf (rest.filterMap
            (fun q => (pruneBucket now ttl q.2).map (fun l2 => (q.1, l2)))) := by
          intro hmem
          have hsub := keysOf_pruneStale_sublist ttl now rest
          rw [pruneStaleReadings, if_neg h0] at hsub
          exact hnod.1 (hp ▸ hsub.mem hmem)
        exact alookup_eq_none_of_not_mem_keys d _ hd
      · simp [List.filterMap_cons, hb, alookup, hp]
    · rw [alookup, if_neg hp] at hl
      rcases hb : pruneBucket now ttl p.2 with _ | l'
      · simp only [List.filterMap_cons, hb, Option.map_none']
        exact ih hnod.2 hl
      · simp only [List.filterMap_cons, hb, Option.map_some']
        rw [alookup, if_neg hp]
        exact ih hnod.2 hl

theorem latest_filter_eq (d : String) (latest : Reading) (u : Store)
    (b : List Reading)
    (hnod : (keysOf u).Nodup)
    (hother : ∀ p ∈ u, p.1 ≠ d → ∀ x, p.2.getLast? = some x → x.deviceId ≠ d)
    (hb : alookup d u = some b) (hlast : b.getLast? = some latest)
    (hdev : latest.deviceId = d) :
    (u.filterMap (fun p => p.2.getLast?)).filter
      (fun r => decide (r.deviceId = d)) = [latest] := by
  induction u with
  | nil => simp [alookup] at hb
  | cons p rest ih =>
    simp only [keysOf, List.map_cons, List.nodup_cons] at hnod
    by_cases hp : p.1 = d
    · rw [alookup, if_pos hp] at hb
      injection hb with hb
      subst hb
      have htail : (rest.filterMap (fun p => p.2.getLast?)).filter
          (fun r => decide (r.deviceId = d)) = [] := by
        rw [List.filter_eq_nil_iff]
        intro x hx
        rcases List.mem_filterMap.mp hx with ⟨q, hq, hgl⟩
        have hqd : q.1 ≠ d := by
          intro he
          exact hnod.1 (hp ▸ he ▸ (List.mem_map_of_mem Prod.fst hq))
        simpa using hother q (List.mem_cons_of_mem _ hq) hqd x hgl
      simp [List.filterMap_cons, hlast, List.filter_cons, hdev, htail]
    · rw [alookup, if_neg hp] at hb
      have hrec := ih hnod.2 (fun q hq => hother q (List.mem_cons_of_mem _ hq)) hb
      rcases hgl : p.2.getLast? with _ | x
      · simpa [List.filterMap_cons, hgl] using hrec
      · have hxd : x.deviceId ≠ d := hother p (List.mem_cons_self _ _) hp x hgl
        simp [List.filterMap_cons, hgl, List.filter_cons, hxd, hrec]

/-- C5: once a device has at least one stored reading, even after every
stored entry for that device has aged past the TTL, `listLatestReadings`
still returns exactly one entry for that device, namely the most recently
stored reading (the sentinel retained by pruning); the device never
disappears from the listing. -/
theorem offline_retention (ttl now : Int) (s : Store) (d : String)
    (l : List Reading) (latest : Reading)
    (hnod : (keysOf s).Nodup)
    (hwf : ∀ p ∈ s, ∀ r ∈ p.2, r.deviceId = p.1)
    (hl : alookup d s = some l)
    (hlast : l.getLast? = some latest)
    (hstale : ∀ r ∈ l, isFresh now ttl r = false) :
    (listLatestReadings ttl now s).filter
      (fun r => decide (r.deviceId = d)) = [latest] := by
  have hmem : latest ∈ l := by
    rcases List.mem_getLast?_eq_getLast (Option.mem_def.mpr hlast) with ⟨hl0, heq⟩
    rw [heq]
    exact List.getLast_mem hl0
  have hdev : latest.deviceId = d := hwf (d, l) (alookup_mem d l s hl) latest hmem
  by_cases h0 : ttl ≤ 0
  · -- pruning is skipped entirely; the last stored entry of each device is listed
    have hu : listLatestReadings ttl now s
        = s.filterMap (fun p => p.2.getLast?) := by
      simp [listLatestReadings, pruneStaleReadings, h0]
    rw [hu]
    exact latest_filter_eq d latest s l hnod
      (fun p hp hne x hgl => by
        rcases List.mem_getLast?_eq_getLast (Option.mem_def.mpr hgl) with ⟨hg0, heq⟩
        rw [heq, hwf p hp _ (List.getLast_mem hg0)]
        exact hne)
      hl hlast hdev
  · -- every entry is stale: the prune step retains the single sentinel
    have hpb : pruneBucket now ttl l = some [latest] := by
      have hbne : l.isEmpty = false := by
        cases l
        · simp at hmem
        · simp
      have hfe : l.filter (isFresh now ttl) = [] := by
        rw [List.filter_eq_nil_iff]
        intro x hx
        simp [hstale x hx]
      simp [pruneBucket, hbne, hfe, hlast]
    have hlook : alookup d (pruneStaleReadings ttl now s) = some [latest] := by
      rw [alookup_pruneStale ttl now s d l h0 hnod hl]
      exact hpb
    have hu : listLatestReadings ttl now s
        = (pruneStaleReadings ttl now s).filterMap (fun p => p.2.getLast?) := rfl
    rw [hu]
    refine latest_filter_eq d latest (pruneStaleReadings ttl now s) [latest]
      ((keysOf_pruneStale_sublist ttl now s).nodup hnod)
      (fun p hp hne x hgl => ?_) hlook (by simp) hdev
    -- entries of the pruned store come from the original buckets with the same key
    simp only [pruneStaleReadings, if_neg h0] at hp
    rcases List.mem_filterMap.mp hp with ⟨q, hq, hf⟩
    rcases hb : pruneBucket now ttl q.2 with _ | l2
    · rw [hb] at hf
      simp at hf
    · rw [hb] at hf
      simp only [Option.map_some', Option.some.injEq] at hf
      have hx2 : x ∈ p.2 := by
        rcases List.mem_getLast?_eq_getLast (Option.mem_def.mpr hgl) with ⟨hg0, heq⟩
        rw [heq]
        exact List.getLast_mem hg0
      have hxq : x ∈ q.2 := by
        refine pruneBucket_subset now ttl q.2 l2 hb x ?_
        rw [← hf] at hx2
        exact hx2
      rw [hwf q hq x hxq]
      rw [← hf] at hne
      exact hne

/-- Concrete offline device scenario: one reading, long stale. -/
def staleReading : Reading :=
  { deviceId := "room-1", ts := "0", temperatureC := 20 }

/-- Witness for C5: a device whose single reading aged far past the TTL is
still listed, with exactly that reading. -/
theorem offline_retention_witness :
    (listLatestReadings 60000 100000 [("room-1", [staleReading])]).filter
      (fun r => decide (r.deviceId = "room-1")) = [staleReading] :=
  offline_retention 60000 100000 [("room-1", [staleReading])] "room-1"
    [staleReading] staleReading (by decide)
    (by
      intro p hp r hr
      simp only [List.mem_singleton] at hp
      subst hp
      simp only [List.mem_singleton] at hr
      subst hr
      rfl)
    rfl rfl
    (by
      intro r hr
      simp only [List.mem_singleton] at hr
      subst hr
      decide)

/-! ### C6 — bounded history: capacity `MAX_HISTORY_PER_DEVICE` -/

/-- The bucket-level effect of one `addReading` on a device's history:
append, then evict the oldest entry when over capacity. -/
def capAppend (l : List Reading) (r : Reading) : List Reading :=
  let l' := l ++ [r]
  if l'.length > MAX_HISTORY_PER_DEVICE then l'.drop 1 else l'

theorem pruneBucket_fresh (now ttl : Int) (b : List Reading) (hne : b ≠ [])
    (hfresh : ∀ x ∈ b, isFresh now ttl x = true) :
    pruneBucket now ttl b = some b := by
  have hbne : b.isEmpty = false := by
    cases b
    · simp at hne
    · simp
  have hfe : b.filter (isFresh now ttl) = b := List.filter_eq_self.mpr hfresh
  unfold pruneBucket
  rw [hbne]
  simp only [Bool.false_eq_true, if_false]
  rw [hfe, hbne]
  simp

theorem pruneStale_fresh_singleton (ttl now : Int) (d : String)
    (b : List Reading) (hne : b ≠ [])
    (hfresh : ∀ x ∈ b, isFresh now ttl x = true) :
    pruneStaleReadings ttl now [(d, b)] = [(d, b)] := by
  by_cases h0 : ttl ≤ 0
  · simp [pruneStaleReadings, h0]
  · simp only [pruneStaleReadings, if_neg h0, List.filterMap_cons,
      pruneBucket_fresh now ttl b hne hfresh, Option.map_some', List.filterMap_nil]

theorem capAppend_ne_nil (b : List Reading) (r : Reading) :
    capAppend b r ≠ [] := by
  unfold capAppend
  by_cases h : (b ++ [r]).length > MAX_HISTORY_PER_DEVICE
  · rw [if_pos h]
    have : (b ++ [r]).length = b.length + 1 := by simp
    intro he
    have := List.length_eq_zero.mpr he
    rw [List.length_drop] at this
    unfold MAX_HISTORY_PER_DEVICE at h
    omega
  · rw [if_neg h]
    simp

theorem capAppend_subset (b : List Reading) (r : Reading) :
    ∀ x ∈ capAppend b r, x ∈ b ++ [r] := by
  unfold capAppend
  by_cases h : (b ++ [r]).length > MAX_HISTORY_PER_DEVICE
  · rw [if_pos h]
    exact fun x hx => List.mem_of_mem_drop hx
  · rw [if_neg h]
    exact fun x hx => hx

theorem addReading_single_device (now ttl : Int) (d : String) :
    ∀ (rs : List Reading) (b : List Reading), b ≠ [] →
    (∀ x ∈ b, isFresh now ttl x = true) →
    (∀ x ∈ rs, x.deviceId = d) →
    (∀ x ∈ rs, isFresh now ttl x = true) →
    rs.foldl (addReading now ttl) [(d, b)] = [(d, rs.foldl capAppend b)] := by
  intro rs
  induction rs with
  | nil => intro b _ _ _ _; rfl
  | cons r rs' ih =>
    intro b hbne hbf hdev hf
    have hrd : r.deviceId = d := hdev r (List.mem_cons_self _ _)
    have hlk : alookup d [(d, b)] = some b := by simp [alookup]
    have hstep : addReading now ttl [(d, b)] r = [(d, capAppend b r)] := by
      simp only [addReading]
      rw [pruneStale_fresh_singleton ttl now d b hbne hbf, hrd, hlk]
      simp only [Option.getD_some]
      show aset d (capAppend b r) [(d, b)] = [(d, capAppend b r)]
      simp [aset]
    rw [List.foldl_cons, hstep, List.foldl_cons]
    exact ih (capAppend b r) (capAppend_ne_nil b r)
      (fun x hx => by
        rcases List.mem_append.mp (capAppend_subset b r x hx) with h | h
        · exact hbf x h
        · simp only [List.mem_singleton] at h
          rw [h]
          exact hf r (List.mem_cons_self _ _))
      (fun x hx => hdev x (List.mem_cons_of_mem _ hx))
      (fun x hx => hf x (List.mem_cons_of_mem _ hx))

theorem capAppend_foldl (rs : List Reading) :
    ∀ b : List Reading, b.length ≤ MAX_HISTORY_PER_DEVICE →
    rs.foldl capAppend b
      = (b ++ rs).drop (b.length + rs.length - MAX_HISTORY_PER_DEVICE) := by
  induction rs with
  | nil =>
    intro b hb
    simp only [List.foldl_nil, List.append_nil, List.length_nil, Nat.add_zero,
      Nat.sub_eq_zero_of_le hb, List.drop_zero]
  | cons r rs' ih =>
    intro b hb
    rw [List.foldl_cons]
    by_cases hcap : (b ++ [r]).length > MAX_HISTORY_PER_DEVICE
    · -- at capacity: the oldest entry is evicted
      have hlen : b.length = MAX_HISTORY_PER_DEVICE := by
        simp only [List.length_append, List.length_singleton] at hcap
        omega
      have hc : capAppend b r = (b ++ [r]).drop 1 := by
        unfold capAppend
        rw [if_pos hcap]
      have hlen' : (capAppend b r).length = MAX_HISTORY_PER_DEVICE := by
        rw [hc, List.length_drop]
        simp only [List.length_append, List.length_singleton]
        omega
      rw [ih (capAppend b r) (le_of_eq hlen'), hlen', hc]
      have h1 : MAX_HISTORY_PER_DEVICE + rs'.length - MAX_HISTORY_PER_DEVICE
          = rs'.length := by omega
      have h2 : b.length + (r :: rs').length - MAX_HISTORY_PER_DEVICE
          = rs'.length + 1 := by
        simp only [List.length_cons]
        omega
      rw [h1, h2]
      have hdrop : (b ++ [r]).drop 1 ++ rs' = ((b ++ [r]) ++ rs').drop 1 :=
        (List.drop_append_of_le_length (by simp)).symm
      rw [hdrop, List.drop_drop]
      have hassoc : (b ++ [r]) ++ rs' = b ++ (r :: rs') := by
        rw [List.append_assoc, List.singleton_append]
      rw [hassoc, Nat.add_comm 1 rs'.length]
    · have hc : capAppend b r = b ++ [r] := by
        unfold capAppend
        rw [if_neg hcap]
      have hlen1 : (b ++ [r]).length = b.length + 1 := by simp
      have hlen' : (b ++ [r]).length ≤ MAX_HISTORY_PER_DEVICE := by
        omega
      have hassoc : (b ++ [r]) ++ rs' = b ++ (r :: rs') := by
        rw [List.append_assoc, List.singleton_append]
      have hcnt : (b ++ [r]).length + rs'.length - MAX_HISTORY_PER_DEVICE
          = b.length + (r :: rs').length - MAX_HISTORY_PER_DEVICE := by
        simp only [List.length_append, List.length_singleton, List.length_cons,
          List.length_nil]
        omega
      rw [hc, ih (b ++ [r]) hlen', hassoc, hcnt]

/-- C6: after inserting `MAX_HISTORY_PER_DEVICE + 1` readings for one
device via `addReading` (all with parseable timestamps within the TTL, so
pruning removes nothing), the device's stored history has length exactly
`MAX_HISTORY_PER_DEVICE`, the earliest-inserted reading is the one
evicted, and the remaining readings are the last
`MAX_HISTORY_PER_DEVICE` inserted, in insertion order. -/
theorem bounded_history (now ttl : Int) (d : String) (rs : List Reading)
    (hlen : rs.length = MAX_HISTORY_PER_DEVICE + 1)
    (hdev : ∀ r ∈ rs, r.deviceId = d)
    (hfresh : ∀ r ∈ rs, isFresh now ttl r = true) :
    alookup d (rs.foldl (addReading now ttl) []) = some rs.tail ∧
    rs.tail.length = MAX_HISTORY_PER_DEVICE := by
  rcases rs with _ | ⟨r0, rest⟩
  · simp at hlen
  · have hr0d : r0.deviceId = d := hdev r0 (List.mem_cons_self _ _)
    have hstep0 : addReading now ttl [] r0 = [(d, [r0])] := by
      have hpr : pruneStaleReadings ttl now [] = [] := by
        by_cases h0 : ttl ≤ 0 <;> simp [pruneStaleReadings, h0]
      simp only [addReading]
      rw [hpr, hr0d]
      simp only [alookup, Option.getD_none, List.nil_append]
      rw [if_neg (by simp [MAX_HISTORY_PER_DEVICE])]
      rfl
    rw [List.foldl_cons, hstep0]
    rw [addReading_single_device now ttl d rest [r0] (by simp)
      (fun x hx => by
        simp only [List.mem_singleton] at hx
        rw [hx]
        exact hfresh r0 (List.mem_cons_self _ _))
      (fun x hx => hdev x (List.mem_cons_of_mem _ hx))
      (fun x hx => hfresh x (List.mem_cons_of_mem _ hx))]
    have hrest : rest.length = MAX_HISTORY_PER_DEVICE := by
      simp only [List.length_cons] at hlen
      omega
    have hfold : rest.foldl capAppend [r0] = rest := by
      rw [capAppend_foldl rest [r0] (by simp [MAX_HISTORY_PER_DEVICE])]
      have : [r0].length + rest.length - MAX_HISTORY_PER_DEVICE = 1 := by
        simp only [List.length_singleton]
        omega
      rw [this]
      simp
    rw [hfold]
    constructor
    · simp [alookup]
    · simpa using hrest

/-- Witness for C6 at a concrete run: 501 identical fresh readings. -/
theorem bounded_history_witness :
    alookup "room-1"
        ((List.replicate (MAX_HISTORY_PER_DEVICE + 1) staleReading).foldl
          (addReading 0 DEFAULT_READING_TTL_MS) [])
      = some (List.replicate (MAX_HISTORY_PER_DEVICE + 1) staleReading).tail ∧
    (List.replicate (MAX_HISTORY_PER_DEVICE + 1) staleReading).tail.length
      = MAX_HISTORY_PER_DEVICE :=
  bounded_history 0 DEFAULT_READING_TTL_MS "room-1"
    (List.replicate (MAX_HISTORY_PER_DEVICE + 1) staleReading)
    (by simp)
    (fun r hr => by
      rw [List.eq_of_mem_replicate hr]
      rfl)
    (fun r hr => by
      rw [List.eq_of_mem_replicate hr]
      decide)

/-! ## Device preferences (`src/lib/device-preferences.ts`)

The preference store is the in-memory `deviceIdToPreferences` map.  The
disk round-trips (`loadPreferencesFromDisk` / `persistPreferencesToDisk`)
re-read and re-write the same data and swallow file errors, so in this
single-process model they are the identity and are not represented. -/

/-- JS `String.prototype.trim`, modelled structurally over the character
list (the core library `String.trim` is not kernel-reducible). -/
def strTrim (s : String) : String :=
  ⟨((s.data.dropWhile Char.isWhitespace).reverse.dropWhile
      Char.isWhitespace).reverse⟩

/-- JS `String.prototype.toLowerCase`, modelled via `Char.toLower`. -/
def strToLower (s : String) : String := ⟨s.data.map Char.toLower⟩

/-- `email.trim().toLowerCase()` — the email normalization used
throughout `device-preferences.ts`. -/
def normEmail (e : String) : String := strToLower (strTrim e)

structure TemperatureThresholds where
  lowC : Option ℚ := none
  highC : Option ℚ := none
deriving DecidableEq

/-- A JS value arriving in a threshold field of `setUserThresholds`
input, classified the way `normalizeThresholdValue` inspects it:
a finite number, a non-finite number (`NaN`/`±Infinity`), a string whose
trim is nonempty and parses (via `Number`) to a finite value, a string
that does not, or any other value. -/
inductive JsNum
  | num (q : ℚ)
  | nonfinite
  | strNum (q : ℚ)
  | strBad
  | other
deriving DecidableEq

/-- `Math.round(value * 10) / 10` — round to one decimal place
(`Math.round` rounds half toward `+∞`, matching Mathlib's `round`). -/
def round10 (q : ℚ) : ℚ := ((round (q * 10) : ℤ) : ℚ) / 10

def normalizeThresholdValue : Option JsNum → Option ℚ
  | some (JsNum.num q) => some (round10 q)
  | some (JsNum.strNum q) => some (round10 q)
  | _ => none

/-- The raw `{ lowC?, highC? }` object passed to `setUserThresholds`
(`none` at the outer level models `null`/`undefined` input). -/
structure ThresholdsInput where
  lowC : Option JsNum := none
  highC : Option JsNum := none
deriving DecidableEq

def normalizeThresholds (value : Option ThresholdsInput) :
    Option TemperatureThresholds :=
  match value with
  | none => none
  | some input =>
    let lowC := normalizeThresholdValue input.lowC
    let highC := normalizeThresholdValue input.highC
    match lowC, highC with
    | none, none => none
    | some l, some h =>
      if l > h then some ⟨some h, some l⟩ else some ⟨some l, some h⟩
    | l, h => some ⟨l, h⟩

structure DevicePreferences where
  label : Option String := none
  thresholds : Option TemperatureThresholds := none
  thresholdsByUser : Option (SMap TemperatureThresholds) := none
  labelsByUser : Option (SMap String) := none
deriving DecidableEq

/-- `deviceIdToPreferences`. -/
abbrev PrefsState := SMap DevicePreferences

/-- The per-user map copy performed by the getters: entries are re-keyed
by normalized email (entries whose normalized email is empty are
dropped), values copied. -/
def normalizeUserMap (m : SMap TemperatureThresholds) :
    SMap TemperatureThresholds :=
  m.foldl
    (fun acc p =>
      if normEmail p.1 = "" then acc else aset (normEmail p.1) p.2 acc) []

/-- The `labelsByUser` copy: keeps entries whose label trims nonempty and
whose normalized email is nonempty. -/
def copyLabelsByUser (m : SMap String) : SMap String :=
  m.foldl
    (fun acc p =>
      if strTrim p.2 = "" then acc
      else if normEmail p.1 = "" then acc
      else aset (normEmail p.1) p.2 acc) []

def getDevicePreferences (prefs : PrefsState) (deviceId : String) :
    Option DevicePreferences :=
  match alookup (strTrim deviceId) prefs with
  | none => none
  | some preference =>
    some { label := preference.label
           thresholds := preference.thresholds
           thresholdsByUser := preference.thresholdsByUser.map normalizeUserMap
           labelsByUser := preference.labelsByUser.bind (fun m =>
             let byUser := copyLabelsByUser m
             if byUser.isEmpty then none else some byUser) }

def getAllUserThresholds (prefs : PrefsState) (deviceId : String) :
    SMap TemperatureThresholds :=
  match alookup (strTrim deviceId) prefs with
  | none => []
  | some pref =>
    match pref.thresholdsByUser with
    | none => []
    | some m => normalizeUserMap m

def getUserThresholds (prefs : PrefsState) (deviceId email : String) :
    Option TemperatureThresholds :=
  match alookup (strTrim deviceId) prefs with
  | none => none
  | some pref =>
    match pref.thresholdsByUser.bind (fun m => alookup (normEmail email) m) with
    | some t => some t
    | none => pref.thresholds

/-- `setUserThresholds(deviceId, email, thresholds)`: normalizes the
input; `none` (removal, or an input with no usable bound) deletes the
user's entry, otherwise the normalized thresholds are stored; the map is
written back only when something changed, and an emptied per-user map is
deleted from the preference record. -/
def setUserThresholds (prefs : PrefsState) (deviceId email : String)
    (thresholds : Option ThresholdsInput) : PrefsState :=
  let normalizedId := strTrim deviceId
  if normalizedId = "" then prefs
  else
    let normalizedEmail := normEmail email
    let next := (alookup normalizedId prefs).getD {}
    let norm := normalizeThresholds thresholds
    let byUser := next.thresholdsByUser.getD []
    match norm with
    | none =>
      match alookup normalizedEmail byUser with
      | some _ =>
        let byUser2 := aerase normalizedEmail byUser
        let next2 := { next with thresholdsByUser :=
          if byUser2.isEmpty then none else some byUser2 }
        aset normalizedId next2 prefs
      | none => prefs
    | some n =>
      if alookup normalizedEmail byUser = some n then prefs
      else
        let byUser2 := aset normalizedEmail n byUser
        let next2 := { next with thresholdsByUser :=
          if byUser2.isEmpty then none else some byUser2 }
        aset normalizedId next2 prefs

/-! ## Alert engine (`src/lib/alerts.ts`) -/

inductive AlertVariant
  | low
  | high
deriving DecidableEq

inductive AlertMode
  | ok
  | low
  | high
deriving DecidableEq

def AlertVariant.toMode : AlertVariant → AlertMode
  | .low => .low
  | .high => .high

structure ActiveAlert where
  deviceId : String
  variant : AlertVariant
  thresholdC : ℚ
  temperatureC : ℚ
  triggeredAt : String
  roomLabel : Option String := none
  userEmail : Option String := none
deriving DecidableEq

/-- The module-level mutable maps `activeAlerts` and `lastModes`,
keyed by the composite string `deviceId ++ "|" ++ email`. -/
structure AlertEngineState where
  activeAlerts : SMap ActiveAlert
  lastModes : SMap AlertMode
deriving DecidableEq

def initialAlerts : AlertEngineState := ⟨[], []⟩

def exceedsHigh (temperatureC : ℚ) (t : TemperatureThresholds) : Bool :=
  match t.highC with
  | some h => decide (temperatureC > h)
  | none => false

def belowLow (temperatureC : ℚ) (t : TemperatureThresholds) : Bool :=
  match t.lowC with
  | some l => decide (temperatureC < l)
  | none => false

/-- The threshold transition function: `high` when above a configured
upper bound, else `low` when below a configured lower bound, else `ok`. -/
def evaluateMode (temperatureC : ℚ)
    (thresholds : Option TemperatureThresholds) : AlertMode :=
  match thresholds with
  | none => .ok
  | some t =>
    if exceedsHigh temperatureC t then .high
    else if belowLow temperatureC t then .low
    else .ok

def keyFor (deviceId email : String) : String := deviceId ++ "|" ++ email

def isPrefixList : List Char → List Char → Bool
  | [], _ => true
  | _ :: _, [] => false
  | a :: as, b :: bs => if a = b then isPrefixList as bs else false

/-- JS `key.startsWith(pre)` (the core `String.startsWith` is not
kernel-reducible, so character-list matching is used). -/
def strStartsWith (s pre : String) : Bool := isPrefixList pre.data s.data

/-- Deletes every `activeAlerts` and `lastModes` entry whose key starts
with `deviceId ++ "|"`. -/
def clearDeviceForAllUsers (deviceId : String) (st : AlertEngineState) :
    AlertEngineState :=
  { activeAlerts :=
      st.activeAlerts.filter (fun kv => ! strStartsWith kv.1 (deviceId ++ "|"))
    lastModes :=
      st.lastModes.filter (fun kv => ! strStartsWith kv.1 (deviceId ++ "|")) }

/-- The non-`ok` arm of the per-pair evaluation: upsert the ActiveAlert
(preserving `triggeredAt` from a prior entry when one exists, else
stamping the reading's timestamp), record the mode, and dispatch exactly
when the mode changed.  Returns the new state and the list of dispatched
alerts. -/
def breachUpdate (roomLabel userEmail : Option String) (r : Reading)
    (st : AlertEngineState) (k : String) (prev : AlertMode)
    (variant : AlertVariant) (thresholdC : Option ℚ) :
    AlertEngineState × List ActiveAlert :=
  match thresholdC with
  | none => (st, [])
  | some c =>
    let existing := alookup k st.activeAlerts
    let alert : ActiveAlert :=
      { deviceId := r.deviceId
        variant := variant
        thresholdC := c
        temperatureC := r.temperatureC
        triggeredAt := (existing.map ActiveAlert.triggeredAt).getD r.ts
        roomLabel := roomLabel
        userEmail := userEmail }
    (⟨aset k alert st.activeAlerts, aset k variant.toMode st.lastModes⟩,
      if variant.toMode ≠ prev then [alert] else [])

/-- One (viewer, thresholds) evaluation of `handleReadingForAlerts`.
The legacy-threshold path and the per-user loop body in the source are
identical up to the `userEmail` field of the upserted alert, which is
passed here as `userEmail` (`none` on the legacy path). -/
def applyPair (roomLabel userEmail : Option String) (email : String)
    (thresholds : TemperatureThresholds) (r : Reading)
    (st : AlertEngineState) : AlertEngineState × List ActiveAlert :=
  let k := keyFor r.deviceId email
  let mode := evaluateMode r.temperatureC (some thresholds)
  let prev := (alookup k st.lastModes).getD .ok
  match mode with
  | .ok =>
    if prev ≠ .ok then
      (⟨aerase k st.activeAlerts, aset k .ok st.lastModes⟩, [])
    else
      (⟨st.activeAlerts, aset k .ok st.lastModes⟩, [])
  | .high => breachUpdate roomLabel userEmail r st k prev .high thresholds.highC
  | .low => breachUpdate roomLabel userEmail r st k prev .low thresholds.lowC

/-- `handleReadingForAlerts(reading)`: demo readings are skipped; with no
per-user thresholds and no legacy device-level thresholds every entry of
the device is cleared; otherwise each applicable (viewer, thresholds)
pair is evaluated.  The returned list collects the alerts handed to the
notification dispatcher (in evaluation order). -/
def handleReadingForAlerts (prefs : PrefsState) (st : AlertEngineState)
    (r : Reading) : AlertEngineState × List ActiveAlert :=
  if r.isDemo then (st, [])
  else
    let preference := getDevicePreferences prefs r.deviceId
    let thresholdsByUser := getAllUserThresholds prefs r.deviceId
    if thresholdsByUser.isEmpty then
      match preference.bind DevicePreferences.thresholds with
      | none => (clearDeviceForAllUsers r.deviceId st, [])
      | some legacy =>
        applyPair (preference.bind DevicePreferences.label) none
          "__legacy__" legacy r st
    else
      thresholdsByUser.foldl
        (fun acc p =>
          let out := applyPair (preference.bind DevicePreferences.label)
            (some p.1) p.1 p.2 r acc.1
          (out.1, acc.2 ++ out.2))
        (st, [])

def listActiveAlerts (st : AlertEngineState) : List ActiveAlert :=
  st.activeAlerts.map Prod.snd

/-! ### C2 — hysteresis: dispatch on transition only -/

def c2thresholds : TemperatureThresholds := { highC := some 30 }

def c2prefs : PrefsState :=
  [("room-1",
    { thresholdsByUser := some [("user@example.com", c2thresholds)] })]

def c2reading (ts : String) (t : ℚ) : Reading :=
  { deviceId := "room-1", ts := ts, temperatureC := t }

def c2s1 : AlertEngineState × List ActiveAlert :=
  handleReadingForAlerts c2prefs initialAlerts (c2reading "1000" 29)

def c2s2 : AlertEngineState × List ActiveAlert :=
  handleReadingForAlerts c2prefs c2s1.1 (c2reading "2000" 31)

def c2s3 : AlertEngineState × List ActiveAlert :=
  handleReadingForAlerts c2prefs c2s2.1 (c2reading "3000" 32)

def c2s4 : AlertEngineState × List ActiveAlert :=
  handleReadingForAlerts c2prefs c2s3.1 (c2reading "4000" 29)

/-- C2: for thresholds `{highC: 30}` and the non-demo reading sequence
`29, 31, 32, 29` on one (device, viewer) pair, exactly one notification
dispatch occurs — on the `29 → 31` transition — and exactly one clear of
the ActiveAlert entry occurs — on the final `32 → 29` reading; the `31`
and `32` readings while already in `high` produce no additional
dispatch. -/
theorem hysteresis_sequence :
    c2s1.2 = [] ∧
    c2s2.2 = [{ deviceId := "room-1", variant := .high, thresholdC := 30,
                temperatureC := 31, triggeredAt := "2000",
                userEmail := some "user@example.com" }] ∧
    c2s3.2 = [] ∧
    c2s4.2 = [] ∧
    alookup "room-1|user@example.com" c2s1.1.activeAlerts = none ∧
    (alookup "room-1|user@example.com" c2s2.1.activeAlerts).isSome = true ∧
    (alookup "room-1|user@example.com" c2s3.1.activeAlerts).isSome = true ∧
    listActiveAlerts c2s4.1 = [] := by
  decide

/-! ### C3 — `triggeredAt` stability across a continuing breach -/

/-- The `triggeredAt` value an entry at key `k0` must carry after
processing reading `r`: the prior entry's `triggeredAt` when the key was
already breaching, else the reading's own timestamp. -/
def prevTrig (st : AlertEngineState) (r : Reading) (k0 : String) : String :=
  match alookup k0 st.activeAlerts with
  | some a => a.triggeredAt
  | none => r.ts

theorem breachUpdate_triggeredAt (roomLabel userEmail : Option String)
    (r : Reading) (st : AlertEngineState) (k : String) (prev : AlertMode)
    (variant : AlertVariant) (thC : Option ℚ) (k0 : String) (a' : ActiveAlert)
    (h : alookup k0
        (breachUpdate roomLabel userEmail r st k prev variant thC).1.activeAlerts
      = some a') :
    a'.triggeredAt = prevTrig st r k0 := by
  rcases thC with _ | c
  · simp only [breachUpdate] at h
    rw [prevTrig, h]
  · simp only [breachUpdate] at h
    by_cases hk : k0 = k
    · subst hk
      rw [alookup_aset_self] at h
      injection h with h
      rw [← h]
      simp only [prevTrig]
      rcases he : alookup k0 st.activeAlerts with _ | a <;> simp [he]
    · rw [alookup_aset_ne k k0 _ _ hk] at h
      rw [prevTrig, h]

theorem applyPair_triggeredAt (roomLabel userEmail : Option String)
    (email : String) (thresholds : TemperatureThresholds) (r : Reading)
    (st : AlertEngineState) (k0 : String) (a' : ActiveAlert)
    (hnod : (keysOf st.activeAlerts).Nodup)
    (h : alookup k0
        (applyPair roomLabel userEmail email thresholds r st).1.activeAlerts
      = some a') :
    a'.triggeredAt = prevTrig st r k0 := by
  simp only [applyPair] at h
  rcases hm : evaluateMode r.temperatureC (some thresholds) with _ | _ | _ <;>
    rw [hm] at h
  · -- mode ok
    by_cases hprev :
        ((alookup (keyFor r.deviceId email) st.lastModes).getD .ok) ≠ .ok
    · rw [if_pos hprev] at h
      by_cases hk : k0 = keyFor r.deviceId email
      · subst hk
        rw [alookup_aerase_self _ _ hnod] at h
        exact absurd h (by simp)
      · rw [alookup_aerase_ne _ _ _ hk] at h
        rw [prevTrig, h]
    · rw [if_neg hprev] at h
      rw [prevTrig, h]
  · exact breachUpdate_triggeredAt _ _ _ _ _ _ _ _ _ _ h
  · exact breachUpdate_triggeredAt _ _ _ _ _ _ _ _ _ _ h

theorem breachUpdate_lookup_ne (roomLabel userEmail : Option String)
    (r : Reading) (st : AlertEngineState) (k : String) (prev : AlertMode)
    (variant : AlertVariant) (thC : Option ℚ) (k0 : String)
    (hne : k0 ≠ k) :
    alookup k0
        (breachUpdate roomLabel userEmail r st k prev variant thC).1.activeAlerts
      = alookup k0 st.activeAlerts := by
  rcases thC with _ | c
  · rfl
  · simp only [breachUpdate]
    exact alookup_aset_ne k k0 _ _ hne

theorem applyPair_lookup_ne (roomLabel userEmail : Option String)
    (email : String) (thresholds : TemperatureThresholds) (r : Reading)
    (st : AlertEngineState) (k0 : String)
    (hne : k0 ≠ keyFor r.deviceId email) :
    alookup k0
        (applyPair roomLabel userEmail email thresholds r st).1.activeAlerts
      = alookup k0 st.activeAlerts := by
  simp only [applyPair]
  rcases hm : evaluateMode r.temperatureC (some thresholds) with _ | _ | _ <;>
    dsimp only
  · by_cases hprev :
        ((alookup (keyFor r.deviceId email) st.lastModes).getD .ok) ≠ .ok
    · rw [if_pos hprev]
      exact alookup_aerase_ne _ _ _ hne
    · rw [if_neg hprev]
  · exact breachUpdate_lookup_ne _ _ _ _ _ _ _ _ _ hne
  · exact breachUpdate_lookup_ne _ _ _ _ _ _ _ _ _ hne

theorem breachUpdate_nodup_active (roomLabel userEmail : Option String)
    (r : Reading) (st : AlertEngineState) (k : String) (prev : AlertMode)
    (variant : AlertVariant) (thC : Option ℚ)
    (hnod : (keysOf st.activeAlerts).Nodup) :
    (keysOf
        (breachUpdate roomLabel userEmail r st k prev variant thC).1.activeAlerts).Nodup := by
  rcases thC with _ | c
  · exact hnod
  · simp only [breachUpdate]
    exact nodup_keysOf_aset _ _ _ hnod

theorem applyPair_nodup_active (roomLabel userEmail : Option String)
    (email : String) (thresholds : TemperatureThresholds) (r : Reading)
    (st : AlertEngineState)
    (hnod : (keysOf st.activeAlerts).Nodup) :
    (keysOf
        (applyPair roomLabel userEmail email thresholds r st).1.activeAlerts).Nodup := by
  simp only [applyPair]
  rcases hm : evaluateMode r.temperatureC (some thresholds) with _ | _ | _ <;>
    dsimp only
  · by_cases hprev :
        ((alookup (keyFor r.deviceId email) st.lastModes).getD .ok) ≠ .ok
    · rw [if_pos hprev]
      exact nodup_keysOf_aerase _ _ hnod
    · rw [if_neg hprev]
      exact hnod
  · exact breachUpdate_nodup_active _ _ _ _ _ _ _ _ hnod
  · exact breachUpdate_nodup_active _ _ _ _ _ _ _ _ hnod

/-- The state component of the per-user fold in
`handleReadingForAlerts`. -/
def foldPairsState (roomLabel : Option String) (r : Reading)
    (entries : SMap TemperatureThresholds) (st : AlertEngineState) :
    AlertEngineState :=
  entries.foldl (fun s p => (applyPair roomLabel (some p.1) p.1 p.2 r s).1) st

theorem handle_fold_fst (roomLabel : Option String) (r : Reading) :
    ∀ (entries : SMap TemperatureThresholds) (st : AlertEngineState)
      (acc : List ActiveAlert),
    (entries.foldl (fun acc2 p =>
        let out := applyPair roomLabel (some p.1) p.1 p.2 r acc2.1
        (out.1, acc2.2 ++ out.2)) (st, acc)).1
      = foldPairsState roomLabel r entries st := by
  intro entries
  induction entries with
  | nil => intro st acc; rfl
  | cons p rest ih =>
    intro st acc
    simp only [List.foldl_cons, foldPairsState]
    exact ih _ _

theorem foldPairsState_lookup_ne (roomLabel : Option String) (r : Reading) :
    ∀ (entries : SMap TemperatureThresholds) (st : AlertEngineState)
      (k0 : String),
    (∀ e ∈ keysOf entries, keyFor r.deviceId e ≠ k0) →
    alookup k0 (foldPairsState roomLabel r entries st).activeAlerts
      = alookup k0 st.activeAlerts := by
  intro entries
  induction entries with
  | nil => intro st k0 _; rfl
  | cons p rest ih =>
    intro st k0 hne
    have h1 : keyFor r.deviceId p.1 ≠ k0 :=
      hne p.1 (by simp [keysOf])
    have h2 := ih ((applyPair roomLabel (some p.1) p.1 p.2 r st).1) k0
      (fun e he => hne e (by simp only [keysOf, List.map_cons, List.mem_cons]; right; simpa [keysOf] using he))
    simp only [foldPairsState, List.foldl_cons] at h2 ⊢
    rw [h2]
    exact applyPair_lookup_ne _ _ _ _ _ _ _ (fun e => h1 e.symm)

theorem foldPairsState_nodup_active (roomLabel : Option String) (r : Reading) :
    ∀ (entries : SMap TemperatureThresholds) (st : AlertEngineState),
    (keysOf st.activeAlerts).Nodup →
    (keysOf (foldPairsState roomLabel r entries st).activeAlerts).Nodup := by
  intro entries
  induction entries with
  | nil => intro st h; exact h
  | cons p rest ih =>
    intro st h
    simp only [foldPairsState, List.foldl_cons]
    exact ih _ (applyPair_nodup_active _ _ _ _ _ _ h)

theorem foldPairsState_triggeredAt (roomLabel : Option String) (r : Reading) :
    ∀ (entries : SMap TemperatureThresholds) (st : AlertEngineState)
      (k0 : String) (a' : ActiveAlert),
    (keysOf st.activeAlerts).Nodup →
    ((keysOf entries).map (keyFor r.deviceId)).Nodup →
    alookup k0 (foldPairsState roomLabel r entries st).activeAlerts = some a' →
    a'.triggeredAt = prevTrig st r k0 := by
  intro entries
  induction entries with
  | nil =>
    intro st k0 a' _ _ h
    simp only [foldPairsState, List.foldl_nil] at h
    rw [prevTrig, h]
  | cons p rest ih =>
    intro st k0 a' hnod hknod h
    simp only [keysOf, List.map_cons, List.nodup_cons] at hknod
    simp only [foldPairsState, List.foldl_cons] at h
    by_cases hk : k0 = keyFor r.deviceId p.1
    · subst hk
      have huntouched := foldPairsState_lookup_ne roomLabel r rest
        ((applyPair roomLabel (some p.1) p.1 p.2 r st).1)
        (keyFor r.deviceId p.1)
        (fun e he hkey => hknod.1 (by
          rw [← hkey]
          exact List.mem_map_of_mem (keyFor r.deviceId) (by simpa [keysOf] using he)))
      rw [foldPairsState] at huntouched
      rw [huntouched] at h
      exact applyPair_triggeredAt _ _ _ _ _ _ _ _ hnod h
    · have hrec := ih ((applyPair roomLabel (some p.1) p.1 p.2 r st).1) k0 a'
        (applyPair_nodup_active _ _ _ _ _ _ hnod)
        (by simpa [keysOf] using hknod.2)
        (by
          rw [foldPairsState]
          exact h)
      rw [hrec, prevTrig, prevTrig,
        applyPair_lookup_ne _ _ _ _ _ _ _ hk]

theorem normalizeUserMap_nodup (m : SMap TemperatureThresholds) :
    (keysOf (normalizeUserMap m)).Nodup := by
  suffices h : ∀ acc : SMap TemperatureThresholds, (keysOf acc).Nodup →
      (keysOf (m.foldl
        (fun acc p =>
          if normEmail p.1 = "" then acc else aset (normEmail p.1) p.2 acc)
        acc)).Nodup by
    exact h [] (by simp [keysOf])
  induction m with
  | nil => intro acc h; exact h
  | cons p rest ih =>
    intro acc h
    simp only [List.foldl_cons]
    by_cases he : normEmail p.1 = ""
    · rw [if_pos he]
      exact ih acc h
    · rw [if_neg he]
      exact ih _ (nodup_keysOf_aset _ _ _ h)

theorem getAllUserThresholds_nodup (prefs : PrefsState) (d : String) :
    (keysOf (getAllUserThresholds prefs d)).Nodup := by
  unfold getAllUserThresholds
  rcases alookup (strTrim d) prefs with _ | pref <;> dsimp only
  · simp [keysOf]
  · rcases pref.thresholdsByUser with _ | m <;> dsimp only
    · simp [keysOf]
    · exact normalizeUserMap_nodup m

theorem keyFor_inj_email (d : String) :
    Function.Injective (fun e => keyFor d e) := by
  intro e1 e2 h
  simp only [keyFor] at h
  have h' : ((d ++ "|") ++ e1).data = ((d ++ "|") ++ e2).data :=
    congrArg String.data h
  rw [String.data_append, String.data_append] at h'
  have h2 : e1.data = e2.data := List.append_cancel_left h'
  cases e1 with
  | mk l1 =>
    cases e2 with
    | mk l2 => exact congrArg String.mk h2

/-- C3: for every (deviceId, viewer) key, one step of
`handleReadingForAlerts` either leaves `triggeredAt` exactly as it was
when the key was already breaching (the breach continues), or stamps the
current reading's timestamp when the key had no active alert (the breach
begins).  Applied across consecutive readings this says `triggeredAt` is
fixed at the moment a breach begins, carried forward unchanged while the
state never returns to `ok`, and re-stamped only after a clear and a new
breach. -/
theorem triggeredAt_stability (prefs : PrefsState) (st : AlertEngineState)
    (r : Reading) (k0 : String) (a' : ActiveAlert)
    (hnod : (keysOf st.activeAlerts).Nodup)
    (h : alookup k0 (handleReadingForAlerts prefs st r).1.activeAlerts
      = some a') :
    a'.triggeredAt = prevTrig st r k0 := by
  simp only [handleReadingForAlerts] at h
  by_cases hd : r.isDemo = true
  · rw [if_pos hd] at h
    rw [prevTrig, h]
  · rw [if_neg hd] at h
    by_cases hemp : (getAllUserThresholds prefs r.deviceId).isEmpty = true
    · rw [if_pos hemp] at h
      rcases hleg : (getDevicePreferences prefs r.deviceId).bind
          DevicePreferences.thresholds with _ | legacy
      · rw [hleg] at h
        simp only [clearDeviceForAllUsers] at h
        rw [alookup_filter_key k0
          (fun x => ! strStartsWith x (r.deviceId ++ "|")) st.activeAlerts] at h
        by_cases hq : (! strStartsWith k0 (r.deviceId ++ "|")) = true
        · rw [if_pos hq] at h
          rw [prevTrig, h]
        · rw [if_neg hq] at h
          exact absurd h (by simp)
      · rw [hleg] at h
        exact applyPair_triggeredAt _ _ _ _ _ _ _ _ hnod h
    · rw [if_neg hemp] at h
      rw [handle_fold_fst] at h
      refine foldPairsState_triggeredAt _ r _ st k0 a' hnod ?_ h
      have hn := getAllUserThresholds_nodup prefs r.deviceId
      exact hn.map (keyFor_inj_email r.deviceId)

/-- Witness for C3 at the concrete `31, 32` breach: after processing the
`32` reading the stored alert still carries the `31` reading's timestamp
`"2000"`. -/
theorem triggeredAt_stability_witness :
    ({ deviceId := "room-1", variant := .high, thresholdC := 30,
       temperatureC := 32, triggeredAt := "2000",
       userEmail := some "user@example.com" } : ActiveAlert).triggeredAt
      = prevTrig c2s2.1 (c2reading "3000" 32) "room-1|user@example.com" :=
  triggeredAt_stability c2prefs c2s2.1 (c2reading "3000" 32)
    "room-1|user@example.com" _ (by decide) (by decide)

/-! ### C7 — the `activeAlerts` / `lastModes` invariant -/

/-- The alert-engine state invariant: each map holds at most one entry
per (deviceId, viewer) key, and an ActiveAlert entry exists for a key
exactly when that key's recorded mode is `low` or `high` (not `ok`). -/
def AlertInvariant (st : AlertEngineState) : Prop :=
  (keysOf st.activeAlerts).Nodup ∧ (keysOf st.lastModes).Nodup ∧
  ∀ k, (alookup k st.activeAlerts).isSome = true ↔
    (alookup k st.lastModes = some AlertMode.low ∨
     alookup k st.lastModes = some AlertMode.high)

theorem breachUpdate_invariant (roomLabel userEmail : Option String)
    (r : Reading) (st : AlertEngineState) (k : String) (prev : AlertMode)
    (variant : AlertVariant) (thC : Option ℚ)
    (hinv : AlertInvariant st) :
    AlertInvariant
      (breachUpdate roomLabel userEmail r st k prev variant thC).1 := by
  rcases thC with _ | c
  · exact hinv
  · obtain ⟨h1, h2, h3⟩ := hinv
    simp only [breachUpdate]
    refine ⟨nodup_keysOf_aset _ _ _ h1, nodup_keysOf_aset _ _ _ h2, ?_⟩
    intro k0
    by_cases hk : k0 = k
    · subst hk
      rw [alookup_aset_self, alookup_aset_self]
      cases variant <;> simp [AlertVariant.toMode]
    · rw [alookup_aset_ne k k0 _ _ hk, alookup_aset_ne k k0 _ _ hk]
      exact h3 k0

theorem applyPair_invariant (roomLabel userEmail : Option String)
    (email : String) (thresholds : TemperatureThresholds) (r : Reading)
    (st : AlertEngineState) (hinv : AlertInvariant st) :
    AlertInvariant
      (applyPair roomLabel userEmail email thresholds r st).1 := by
  obtain ⟨h1, h2, h3⟩ := hinv
  simp only [applyPair]
  rcases hm : evaluateMode r.temperatureC (some thresholds) with _ | _ | _ <;>
    dsimp only
  · by_cases hprev :
        ((alookup (keyFor r.deviceId email) st.lastModes).getD .ok) ≠ .ok
    · rw [if_pos hprev]
      refine ⟨nodup_keysOf_aerase _ _ h1, nodup_keysOf_aset _ _ _ h2, ?_⟩
      intro k0
      by_cases hk : k0 = keyFor r.deviceId email
      · subst hk
        rw [alookup_aerase_self _ _ h1, alookup_aset_self]
        simp
      · rw [alookup_aerase_ne _ _ _ hk, alookup_aset_ne _ _ _ _ hk]
        exact h3 k0
    · rw [if_neg hprev]
      refine ⟨h1, nodup_keysOf_aset _ _ _ h2, ?_⟩
      intro k0
      by_cases hk : k0 = keyFor r.deviceId email
      · subst hk
        rw [alookup_aset_self]
        have hpv : (alookup (keyFor r.deviceId email) st.lastModes).getD .ok
            = .ok := by
          by_contra hc
          exact hprev hc
        have hfalse :
            (alookup (keyFor r.deviceId email) st.activeAlerts).isSome
              = false := by
          rcases hlm : alookup (keyFor r.deviceId email) st.lastModes
            with _ | m
          · have h := h3 (keyFor r.deviceId email)
            rw [hlm] at h
            rcases hs : (alookup (keyFor r.deviceId email)
                st.activeAlerts).isSome with _ | _
            · rfl
            · rcases h.mp hs with hc | hc <;> exact absurd hc (by simp)
          · rw [hlm] at hpv
            simp only [Option.getD_some] at hpv
            subst hpv
            have h := h3 (keyFor r.deviceId email)
            rw [hlm] at h
            rcases hs : (alookup (keyFor r.deviceId email)
                st.activeAlerts).isSome with _ | _
            · rfl
            · rcases h.mp hs with hc | hc <;> exact absurd hc (by simp)
        rw [hfalse]
        simp
      · rw [alookup_aset_ne _ _ _ _ hk]
        exact h3 k0
  · exact breachUpdate_invariant _ _ _ _ _ _ _ _ ⟨h1, h2, h3⟩
  · exact breachUpdate_invariant _ _ _ _ _ _ _ _ ⟨h1, h2, h3⟩

theorem clear_invariant (d : String) (st : AlertEngineState)
    (hinv : AlertInvariant st) :
    AlertInvariant (clearDeviceForAllUsers d st) := by
  obtain ⟨h1, h2, h3⟩ := hinv
  simp only [clearDeviceForAllUsers]
  refine ⟨((List.filter_sublist _).map Prod.fst).nodup h1,
    ((List.filter_sublist _).map Prod.fst).nodup h2, ?_⟩
  intro k0
  rw [alookup_filter_key k0 (fun x => ! strStartsWith x (d ++ "|"))
      st.activeAlerts,
    alookup_filter_key k0 (fun x => ! strStartsWith x (d ++ "|"))
      st.lastModes]
  by_cases hq : (! strStartsWith k0 (d ++ "|")) = true
  · rw [if_pos hq, if_pos hq]
    exact h3 k0
  · rw [if_neg hq, if_neg hq]
    simp

theorem foldPairsState_invariant (roomLabel : Option String) (r : Reading) :
    ∀ (entries : SMap TemperatureThresholds) (st : AlertEngineState),
    AlertInvariant st → AlertInvariant (foldPairsState roomLabel r entries st) := by
  intro entries
  induction entries with
  | nil => intro st h; exact h
  | cons p rest ih =>
    intro st h
    simp only [foldPairsState, List.foldl_cons]
    exact ih _ (applyPair_invariant _ _ _ _ _ _ h)

theorem handle_invariant (prefs : PrefsState) (st : AlertEngineState)
    (r : Reading) (hinv : AlertInvariant st) :
    AlertInvariant (handleReadingForAlerts prefs st r).1 := by
  simp only [handleReadingForAlerts]
  by_cases hd : r.isDemo = true
  · rw [if_pos hd]
    exact hinv
  · rw [if_neg hd]
    by_cases hemp : (getAllUserThresholds prefs r.deviceId).isEmpty = true
    · rw [if_pos hemp]
      rcases hleg : (getDevicePreferences prefs r.deviceId).bind
          DevicePreferences.thresholds with _ | legacy <;> dsimp only
      · exact clear_invariant _ _ hinv
      · exact applyPair_invariant _ _ _ _ _ _ hinv
    · rw [if_neg hemp]
      rw [handle_fold_fst]
      exact foldPairsState_invariant _ _ _ _ hinv

/-- C7: after every sequence of alert-engine operations (each a
`handleReadingForAlerts` call, with any readings and any threshold
configurations), for every (deviceId, viewer) key at most one AlertState
entry exists, and an ActiveAlert entry exists for the key if and only if
that key's recorded mode is not `ok` (`activeAlerts` contains the key
exactly when `lastModes` maps it to `low` or `high`). -/
theorem alert_state_invariant (inputs : List (PrefsState × Reading)) :
    AlertInvariant (inputs.foldl
      (fun st q => (handleReadingForAlerts q.1 st q.2).1) initialAlerts) := by
  have hinit : AlertInvariant initialAlerts := by
    refine ⟨by simp [keysOf, initialAlerts], by simp [keysOf, initialAlerts], ?_⟩
    intro k
    simp [initialAlerts, alookup]
  suffices h : ∀ st, AlertInvariant st →
      AlertInvariant (inputs.foldl
        (fun st q => (handleReadingForAlerts q.1 st q.2).1) st) by
    exact h _ hinit
  induction inputs with
  | nil => intro st h; exact h
  | cons q rest ih =>
    intro st h
    simp only [List.foldl_cons]
    exact ih _ (handle_invariant _ _ _ h)

/-! ### C1 — threshold removal and clearing of alert state -/

/-- The preference state after the viewer's thresholds for `room-1` are
removed via `setUserThresholds(…, null)`, starting from `c2prefs`. -/
def c1prefsAfter : PrefsState :=
  setUserThresholds c2prefs "room-1" "user@example.com" none

/-- Counterexample for C1: with an active `high` breach for
`(room-1, user@example.com)` (state `c2s2.1`, reached by the `31`
reading), removing all of the device's thresholds via
`setUserThresholds(…, null)` leaves `getAllUserThresholds` empty and no
legacy device-level thresholds — yet, with no new reading ingested,
`listActiveAlerts` still includes the alert for `room-1`.
`setUserThresholds` lives in the Device Preference Provider and has no
access to the alert engine's maps: `clearDeviceForAllUsers` runs only
inside `handleReadingForAlerts`, i.e. when the next reading arrives. -/
theorem threshold_removal_counterexample :
    getAllUserThresholds c1prefsAfter "room-1" = [] ∧
    (getDevicePreferences c1prefsAfter "room-1").bind
      DevicePreferences.thresholds = none ∧
    (listActiveAlerts c2s2.1).filter
      (fun a => decide (a.deviceId = "room-1")) ≠ [] := by
  decide

/-- C1 (amended): once the Device Preference Provider reports that all
thresholds for a device have been removed (no per-user thresholds and no
legacy device-level thresholds), the alert engine clears every
AlertState/ActiveAlert for that device when the *next* non-demo reading
for the device is processed — not at the moment of removal. -/
theorem threshold_removal_clears_on_next_reading (prefs : PrefsState)
    (st : AlertEngineState) (r : Reading)
    (hwf : ∀ p ∈ st.activeAlerts,
      strStartsWith p.1 (p.2.deviceId ++ "|") = true)
    (hdemo : r.isDemo = false)
    (hempty : getAllUserThresholds prefs r.deviceId = [])
    (hlegacy : (getDevicePreferences prefs r.deviceId).bind
      DevicePreferences.thresholds = none) :
    (listActiveAlerts (handleReadingForAlerts prefs st r).1).filter
      (fun a => decide (a.deviceId = r.deviceId)) = [] := by
  simp only [handleReadingForAlerts]
  rw [if_neg (by simp [hdemo]), hempty]
  simp only [List.isEmpty_nil, if_true, hlegacy]
  rw [List.filter_eq_nil_iff]
  intro a ha
  simp only [listActiveAlerts, clearDeviceForAllUsers] at ha
  rcases List.mem_map.mp ha with ⟨p, hp, hpa⟩
  have hmem : p ∈ st.activeAlerts := List.mem_of_mem_filter hp
  have hkeep : (! strStartsWith p.1 (r.deviceId ++ "|")) = true :=
    (List.mem_filter.mp hp).2
  have hpre : strStartsWith p.1 (p.2.deviceId ++ "|") = true := hwf p hmem
  simp only [decide_eq_true_eq]
  intro heq
  have hdev : p.2.deviceId = r.deviceId := by rw [hpa, heq]
  rw [hdev] at hpre
  rw [hpre] at hkeep
  simp at hkeep

/-- Witness for the amended C1: from the post-removal preferences
`c1prefsAfter` and the breach state `c2s2.1`, processing the next
(non-demo) reading for `room-1` clears the device's alerts. -/
theorem threshold_removal_clears_witness :
    (listActiveAlerts
        (handleReadingForAlerts c1prefsAfter c2s2.1
          (c2reading "5000" 25)).1).filter
      (fun a => decide (a.deviceId = "room-1")) = [] :=
  threshold_removal_clears_on_next_reading c1prefsAfter c2s2.1
    (c2reading "5000" 25) (by decide) rfl (by decide) (by decide)

/-! ## Event bus (`src/lib/bus.ts`) -/

/-- A subscriber callback: `none` models a normal return, `some e` an
exception thrown with message `e`. -/
abbrev Subscriber := Reading → Option String

/-- The loop of `publishReading` starting at registry index `i`.  The
loop body `subscriber(reading)` has no exception handling, so a thrown
exception ends the iteration and propagates.  Returns the indices of the
subscribers that were invoked and the exception that propagated to the
caller (if any). -/
def publishFrom (r : Reading) : Nat → List Subscriber → List Nat × Option String
  | _, [] => ([], none)
  | i, s :: rest =>
    match s r with
    | some e => ([i], some e)
    | none =>
      let out := publishFrom r (i + 1) rest
      (i :: out.1, out.2)

/-- `publishReading(reading)`: synchronously invokes the currently
registered subscribers in registry order. -/
def publishReading (subs : List Subscriber) (r : Reading) :
    List Nat × Option String :=
  publishFrom r 0 subs

def throwingSub : Subscriber := fun _ => some "subscriber boom"

def okSub : Subscriber := fun _ => none

/-- Counterexample for C4: with two registered subscribers of which the
first throws, `publishReading` invokes only the first — the exception
prevents delivery to the remaining subscriber and propagates to the
caller.  The source loop `for (const subscriber of subscribers)
subscriber(reading)` wraps nothing in try/catch. -/
theorem publish_isolation_counterexample :
    (publishReading [throwingSub, okSub] staleReading).1 = [0] ∧
    (publishReading [throwingSub, okSub] staleReading).2
      = some "subscriber boom" := by
  decide

theorem publishFrom_all_ok (r : Reading) :
    ∀ (subs : List Subscriber) (i : Nat), (∀ s ∈ subs, s r = none) →
    publishFrom r i subs = (List.range' i subs.length, none) := by
  intro subs
  induction subs with
  | nil => intro i _; rfl
  | cons s rest ih =>
    intro i hok
    have hs : s r = none := hok s (List.mem_cons_self _ _)
    simp only [publishFrom, hs]
    rw [ih (i + 1) (fun s' hs' => hok s' (List.mem_cons_of_mem _ hs'))]
    simp [List.range']

theorem publishFrom_throws (r : Reading) (e : String) :
    ∀ (pre : List Subscriber) (s : Subscriber) (post : List Subscriber)
      (i : Nat), (∀ s' ∈ pre, s' r = none) → s r = some e →
    publishFrom r i (pre ++ s :: post)
      = (List.range' i (pre.length + 1), some e) := by
  intro pre
  induction pre with
  | nil =>
    intro s post i _ hthrow
    simp only [List.nil_append, publishFrom, hthrow]
    simp [List.range']
  | cons s0 rest ih =>
    intro s post i hok hthrow
    have hs0 : s0 r = none := hok s0 (List.mem_cons_self _ _)
    have hstep : publishFrom r i ((s0 :: rest) ++ s :: post)
        = (i :: (publishFrom r (i + 1) (rest ++ s :: post)).1,
           (publishFrom r (i + 1) (rest ++ s :: post)).2) := by
      show publishFrom r i (s0 :: (rest ++ s :: post)) = _
      simp only [publishFrom, hs0]
    rw [hstep, ih s post (i + 1)
      (fun s' hs' => hok s' (List.mem_cons_of_mem _ hs')) hthrow]
    simp [List.range']

/-- C4 (amended): `publishReading` invokes the registered subscribers in
order only up to (and including) the first whose callback throws.  When
no subscriber throws, every subscriber is invoked and nothing
propagates; when one throws, its exception propagates to the caller of
publish and the remaining subscribers are not invoked — exceptions are
not caught or isolated per subscriber. -/
theorem publish_fanout (subs : List Subscriber) (r : Reading) :
    ((∀ s ∈ subs, s r = none) →
      publishReading subs r = (List.range subs.length, none)) ∧
    (∀ (pre : List Subscriber) (s : Subscriber) (post : List Subscriber)
      (e : String),
      subs = pre ++ s :: post → (∀ s' ∈ pre, s' r = none) → s r = some e →
      publishReading subs r = (List.range (pre.length + 1), some e)) := by
  constructor
  · intro hok
    rw [publishReading, publishFrom_all_ok r subs 0 hok, List.range_eq_range']
  · intro pre s post e hsplit hok hthrow
    rw [publishReading, hsplit, publishFrom_throws r e pre s post 0 hok hthrow,
      List.range_eq_range']

/-- Witness for the amended C4: one healthy subscriber followed by a
throwing one — both are invoked (the healthy one first), and the
exception propagates. -/
theorem publish_fanout_witness :
    publishReading [okSub, throwingSub] staleReading
      = ([0, 1], some "subscriber boom") := by
  have h := (publish_fanout [okSub, throwingSub] staleReading).2
    [okSub] throwingSub [] "subscriber boom" rfl
    (by
      intro s' hs'
      simp only [List.mem_singleton] at hs'
      rw [hs']
      rfl)
    rfl
  rw [h]
  decide

/-! ## Notification dispatcher (`src/lib/notifier.ts`) -/

/-- The alert-channel environment variables (`none` = unset; the empty
string is falsy in JS and also counts as unconfigured). -/
structure NotifierEnv where
  resendApiKey : Option String := none
  emailFrom : Option String := none
  emailTo : Option String := none
  twilioAccountSid : Option String := none
  twilioAuthToken : Option String := none
  smsFrom : Option String := none
  smsTo : Option String := none
deriving DecidableEq

/-- JS truthiness of an optional string environment value. -/
def envTruthy : Option String → Bool
  | none => false
  | some s => ! decide (s = "")

structure EmailConfig where
  apiKey : String
  fromAddr : String
  toAddr : String
deriving DecidableEq

structure SmsConfig where
  accountSid : String
  authToken : String
  fromNum : String
  toNum : String
deriving DecidableEq

/-- `getEmailConfig()`: `undefined` unless all three email variables are
set (and nonempty). -/
def getEmailConfig (env : NotifierEnv) : Option EmailConfig :=
  if envTruthy env.resendApiKey && envTruthy env.emailFrom
      && envTruthy env.emailTo then
    some ⟨env.resendApiKey.getD "", env.emailFrom.getD "",
      env.emailTo.getD ""⟩
  else none

/-- `getSmsConfig()`: `undefined` unless all four SMS variables are set
(and nonempty). -/
def getSmsConfig (env : NotifierEnv) : Option SmsConfig :=
  if envTruthy env.twilioAccountSid && envTruthy env.twilioAuthToken
      && envTruthy env.smsFrom && envTruthy env.smsTo then
    some ⟨env.twilioAccountSid.getD "", env.twilioAuthToken.getD "",
      env.smsFrom.getD "", env.smsTo.getD ""⟩
  else none

/-- The outcome of awaiting one channel's `fetch` call, supplied by the
environment: `Except.error` models a rejected promise. -/
abbrev FetchOutcome := Except String Unit

/-- `sendEmail`: returns (resolves) immediately when the email channel
is unconfigured, otherwise performs the fetch.  The message formatting
(`formatAlertCopy`) affects only the request body, not control flow, and
is not modelled. -/
def sendEmail (env : NotifierEnv) (emailFetch : FetchOutcome)
    (alert : ActiveAlert) : FetchOutcome :=
  match getEmailConfig env with
  | none => Except.ok ()
  | some _ => emailFetch

def sendSms (env : NotifierEnv) (smsFetch : FetchOutcome)
    (alert : ActiveAlert) : FetchOutcome :=
  match getSmsConfig env with
  | none => Except.ok ()
  | some _ => smsFetch

inductive Channel
  | email
  | sms
deriving DecidableEq

/-- What a `sendAlertNotifications` call did: which channels it
attempted and which per-channel failures it logged. -/
structure DispatchOutcome where
  attempted : List Channel
  logs : List String
deriving DecidableEq

/-- `Promise.allSettled`: collects every task's outcome; never
rejects. -/
def allSettled (tasks : List FetchOutcome) : List FetchOutcome := tasks

/-- `sendAlertNotifications(alert)`: builds one task per configured
channel, resolves immediately when no channel is configured, and awaits
`Promise.allSettled`, logging (not re-throwing) each rejection.  The
return type records whether the returned promise rejects; the only
awaited expression is `allSettled`, which never does. -/
def sendAlertNotifications (env : NotifierEnv)
    (emailFetch smsFetch : FetchOutcome) (alert : ActiveAlert) :
    Except String DispatchOutcome :=
  let tasks : List (Channel × FetchOutcome) :=
    (if (getEmailConfig env).isSome
      then [(Channel.email, sendEmail env emailFetch alert)] else [])
    ++ (if (getSmsConfig env).isSome
      then [(Channel.sms, sendSms env smsFetch alert)] else [])
  if tasks.isEmpty then Except.ok ⟨[], []⟩
  else
    let results := allSettled (tasks.map Prod.snd)
    Except.ok ⟨tasks.map Prod.fst,
      results.filterMap (fun res =>
        match res with
        | Except.error e =>
          some ("[alerts] Failed to deliver notification " ++ e)
        | Except.ok _ => none)⟩

/-- C8: `sendAlertNotifications` never surfaces an error to its caller.
For every configuration and every pair of fetch outcomes the call
resolves with `Except.ok` (the promise never rejects); an unconfigured
channel is skipped silently (it never appears among the attempted
channels); with both channels unconfigured the call resolves as a no-op
with nothing attempted; and a rejected delivery in one channel is only
logged — the other channel's attempt is still listed (the attempted
channels depend only on the configuration, never on either fetch
outcome) and no error propagates. -/
theorem dispatcher_contained (env : NotifierEnv)
    (emailFetch smsFetch : FetchOutcome) (alert : ActiveAlert) :
    sendAlertNotifications env emailFetch smsFetch alert
      = Except.ok
        { attempted :=
            (if (getEmailConfig env).isSome then [Channel.email] else [])
            ++ (if (getSmsConfig env).isSome then [Channel.sms] else [])
          logs :=
            ((if (getEmailConfig env).isSome
                then [sendEmail env emailFetch alert] else [])
              ++ (if (getSmsConfig env).isSome
                then [sendSms env smsFetch alert] else [])).filterMap
              (fun res =>
                match res with
                | Except.error e =>
                  some ("[alerts] Failed to deliver notification " ++ e)
                | Except.ok _ => none) } := by
  by_cases he : (getEmailConfig env).isSome = true <;>
    by_cases hs : (getSmsConfig env).isSome = true <;>
      simp [sendAlertNotifications, allSettled, he, hs]

/-! ### C10 — accepted thresholds are normalized -/

/-- A bound rounded to one decimal place: an integer number of tenths
(or absent). -/
def tenthRounded : Option ℚ → Prop
  | none => True
  | some q => ∃ z : ℤ, q = (z : ℚ) / 10

theorem normalizeThresholdValue_tenthRounded (v : Option JsNum) :
    tenthRounded (normalizeThresholdValue v) := by
  rcases v with _ | j
  · trivial
  · rcases j with q | _ | q | _ | _ <;>
      first
        | trivial
        | exact ⟨round (q * 10), rfl⟩

theorem normalizeThresholds_sound (v : Option ThresholdsInput)
    (t : TemperatureThresholds) (h : normalizeThresholds v = some t) :
    tenthRounded t.lowC ∧ tenthRounded t.highC ∧
    (∀ l h2, t.lowC = some l → t.highC = some h2 → l ≤ h2) := by
  rcases v with _ | input
  · simp [normalizeThresholds] at h
  · simp only [normalizeThresholds] at h
    have hlow := normalizeThresholdValue_tenthRounded input.lowC
    have hhigh := normalizeThresholdValue_tenthRounded input.highC
    rcases hl : normalizeThresholdValue input.lowC with _ | l <;>
      rcases hh : normalizeThresholdValue input.highC with _ | h2 <;>
        rw [hl, hh] at h <;> rw [hl] at hlow <;> rw [hh] at hhigh
    · simp at h
    · dsimp only at h
      injection h with h
      subst h
      refine ⟨trivial, hhigh, ?_⟩
      intro l h2 hcl hch
      simp at hcl
    · dsimp only at h
      injection h with h
      subst h
      refine ⟨hlow, trivial, ?_⟩
      intro l2 h2 hcl hch
      simp at hch
    · dsimp only at h
      by_cases hcmp : l > h2
      · rw [if_pos hcmp] at h
        injection h with h
        subst h
        refine ⟨hhigh, hlow, ?_⟩
        intro l2 h3 hcl hch
        simp only [Option.some.injEq] at hcl hch
        subst hcl
        subst hch
        exact le_of_lt hcmp
      · rw [if_neg hcmp] at h
        injection h with h
        subst h
        refine ⟨hlow, hhigh, ?_⟩
        intro l2 h3 hcl hch
        simp only [Option.some.injEq] at hcl hch
        subst hcl
        subst hch
        exact le_of_not_lt hcmp

theorem aset_ne_nil (k : String) (v : α) (m : SMap α) :
    aset k v m ≠ [] := by
  cases m with
  | nil => simp [aset]
  | cons p rest =>
    by_cases hp : p.1 = k <;> simp [aset, hp]

/-- C10: every ThresholdConfig accepted into the preference store is
normalized.  For any input to `setUserThresholds` (with a nonempty
device id), the stored per-user entry equals `normalizeThresholds` of
the input — in particular an input with no usable bound (including
`null` and both bounds absent/non-numeric/non-finite) removes the entry —
and whenever normalization succeeds the stored thresholds have each
bound rounded to one decimal place, satisfy `lowC ≤ highC` whenever both
are present (inputs with `lowC > highC` are stored swapped), and are
returned as-is by `getUserThresholds`. -/
theorem thresholds_normalized (prefs : PrefsState) (deviceId email : String)
    (input : Option ThresholdsInput)
    (hid : strTrim deviceId ≠ "")
    (hnodup : ∀ p ∈ prefs, ∀ m, p.2.thresholdsByUser = some m →
      (keysOf m).Nodup) :
    ((alookup (strTrim deviceId)
        (setUserThresholds prefs deviceId email input)).bind
      (fun p => p.thresholdsByUser.bind
        (fun m => alookup (normEmail email) m)))
      = normalizeThresholds input ∧
    (∀ t, normalizeThresholds input = some t →
      tenthRounded t.lowC ∧ tenthRounded t.highC ∧
      (∀ l h2, t.lowC = some l → t.highC = some h2 → l ≤ h2) ∧
      getUserThresholds (setUserThresholds prefs deviceId email input)
        deviceId email = some t) := by
  have hmain : ((alookup (strTrim deviceId)
      (setUserThresholds prefs deviceId email input)).bind
      (fun p => p.thresholdsByUser.bind
        (fun m => alookup (normEmail email) m)))
      = normalizeThresholds input := by
    simp only [setUserThresholds]
    rw [if_neg hid]
    rcases hnorm : normalizeThresholds input with _ | n <;> dsimp only
    · -- removal (or nothing usable): the user's entry must be absent
      rcases hprev : alookup (normEmail email)
          (((alookup (strTrim deviceId) prefs).getD {}).thresholdsByUser.getD [])
        with _ | tprev <;> dsimp only
      · -- nothing stored, nothing changed
        rcases hdev : alookup (strTrim deviceId) prefs with _ | pref
        · simp [hdev]
        · rw [hdev] at hprev
          simp only [Option.getD_some] at hprev
          rcases hbu : pref.thresholdsByUser with _ | m
          · simp [hdev, hbu]
          · rw [hbu] at hprev
            simp only [Option.getD_some] at hprev
            simp [hdev, hbu, hprev]
      · -- entry present: it is erased
        rw [alookup_aset_self]
        have hnod : (keysOf (((alookup (strTrim deviceId) prefs).getD
            {}).thresholdsByUser.getD [])).Nodup := by
          rcases hdev : alookup (strTrim deviceId) prefs with _ | pref
          · simp [keysOf]
          · simp only [Option.getD_some]
            rcases hbu : pref.thresholdsByUser with _ | m
            · simp [keysOf]
            · simp only [Option.getD_some]
              exact hnodup (strTrim deviceId, pref)
                (alookup_mem _ _ _ hdev) m hbu
        by_cases hemp : (aerase (normEmail email)
            (((alookup (strTrim deviceId) prefs).getD
              {}).thresholdsByUser.getD [])).isEmpty = true
        · rw [if_pos hemp]
          rfl
        · rw [if_neg hemp]
          simp only [Option.some_bind]
          exact alookup_aerase_self _ _ hnod
    · -- a normalized value: it is stored (or already present unchanged)
      by_cases hsame : alookup (normEmail email)
          (((alookup (strTrim deviceId) prefs).getD
            {}).thresholdsByUser.getD []) = some n
      · rw [if_pos hsame]
        rcases hdev : alookup (strTrim deviceId) prefs with _ | pref
        · rw [hdev] at hsame
          simp [alookup] at hsame
        · rw [hdev] at hsame
          simp only [Option.getD_some] at hsame
          rcases hbu : pref.thresholdsByUser with _ | m
          · rw [hbu] at hsame
            simp [alookup] at hsame
          · rw [hbu] at hsame
            simp only [Option.getD_some] at hsame
            simp [hdev, hbu, hsame]
      · rw [if_neg hsame]
        rw [alookup_aset_self]
        rw [if_neg (by
          simp only [List.isEmpty_iff]
          exact aset_ne_nil _ _ _)]
        simp only [Option.some_bind]
        exact alookup_aset_self _ _ _
  refine ⟨hmain, ?_⟩
  intro t ht
  obtain ⟨h1, h2, h3⟩ := normalizeThresholds_sound input t ht
  refine ⟨h1, h2, h3, ?_⟩
  rw [ht] at hmain
  simp only [getUserThresholds]
  rcases hdev : alookup (strTrim deviceId)
      (setUserThresholds prefs deviceId email input) with _ | pref
  · rw [hdev] at hmain
    simp at hmain
  · rw [hdev] at hmain
    simp only [Option.some_bind] at hmain
    dsimp only
    rw [hmain]

/-- Witness for C10: inserting `{lowC: 30, highC: 20}` into an empty
preference store for device `room-1` stores the swapped, normalized
thresholds. -/
theorem thresholds_normalized_witness :
    ((alookup (strTrim "room-1")
        (setUserThresholds [] "room-1" "User@Example.com"
          (some { lowC := some (JsNum.num 30),
                  highC := some (JsNum.num 20) }))).bind
      (fun p => p.thresholdsByUser.bind
        (fun m => alookup (normEmail "User@Example.com") m)))
      = normalizeThresholds
          (some { lowC := some (JsNum.num 30),
                  highC := some (JsNum.num 20) }) :=
  (thresholds_normalized [] "room-1" "User@Example.com"
    (some { lowC := some (JsNum.num 30), highC := some (JsNum.num 20) })
    (by decide)
    (by
      intro p hp
      simp at hp)).1

end RoomTemp
